import Mathlib

/-!
Verification of the AST core of PyFOPPL-2 (`pyppl/ppl_ast.py`).

This file gives a shallow embedding, in Lean, of the parts of `ppl_ast.py`
that the checked claims are about:

* the literal values stored in `AstValue` / `AstValueVector` nodes:
  `None`, `bool`, `int`, `str`, `float` (finite values as exact rationals,
  plus the infinities and NaN, whose Python `==` is not reflexive) and
  `complex` (a pair of float components),
* the AST node kinds exercised by the claims (`AstValue`, `AstSymbol`,
  `AstBinary`, `AstVector`, `AstValueVector`, `AstBody`, `AstBreak`,
  `AstReturn`, `AstCall`),
* structural equality (`AstNode.__eq__` / the per-kind `equals` methods),
  where a Python exception raised during the comparison is modelled as
  `Except.error ()` and the blanket `try/except` of the default
  `AstNode.equals` as `exCatch`,
* the `Scope` chain (`define` / `define_protected` / `resolve`), with the
  `prev`-linked frames represented as a list whose head is the innermost
  frame,
* `ScopedVisitor.define` (destructuring bind) and `is_vector`,
* `AstBody.__init__` (the None-filtering and body-flattening constructor),
  `AstVector.__init__`, `AstValueVector.__init__` and `makeVector`, with
  a failing `assert` modelled as `Except.error ()`,
* the envelope-hook part of `AstNode.visit`, over a small writer/exception
  effect that models Python's `try/finally`.
-/

/-- A Python float: a finite value (every IEEE double is a rational, so
finite floats are carried as exact rationals), one of the two infinities,
or NaN.  Only `==` on floats matters here, and Python's `==` on this
carrier is by value — with `nan` equal to nothing, itself included. -/
inductive PyFloat where
  | finite (q : Rat)
  | inf
  | neginf
  | nan
deriving Repr

/-- Python `==` on floats: finite values compare as numbers, each infinity
equals itself, and `nan` compares unequal to everything — including
itself, so this relation is NOT reflexive. -/
def pyFloatEq : PyFloat → PyFloat → Bool
  | .finite a, .finite b => a == b
  | .inf, .inf => true
  | .neginf, .neginf => true
  | _, _ => false

/-- Python `f == n` for a float and an integer: true exactly for a finite
float of the same numeric value. -/
def pyFloatEqInt (f : PyFloat) (n : Int) : Bool :=
  match f with
  | .finite q => q == (n : Rat)
  | _ => false

/-- The integer value of a Python bool (`True == 1`, `False == 0`). -/
def boolToInt (b : Bool) : Int := if b then 1 else 0

/-- The literal values an `AstValue` node can carry, per the assertion in
`AstValue.__init__` (line 938): `None`, `bool`, `int`, `str`, `float` and
`complex` (a complex number being a pair of float components). -/
inductive PyVal where
  | none
  | bool (b : Bool)
  | int (n : Int)
  | str (s : String)
  | float (x : PyFloat)
  | complex (re : PyFloat) (im : PyFloat)
deriving Repr

/-- Python `==` on the modelled literals.  Strings compare by contents and
`None` only to itself; the numeric tower `bool ⊂ int ⊂ float ⊂ complex`
compares by numeric value across kinds (`True == 1 == 1.0 == 1+0j`), with
any NaN component making the comparison false (`pyFloatEq`); numbers never
equal strings or `None`. -/
def pyValEq : PyVal → PyVal → Bool
  | .none, .none => true
  | .bool b, .bool c => b == c
  | .int m, .int n => m == n
  | .str s, .str t => s == t
  | .float x, .float y => pyFloatEq x y
  | .complex xr xi, .complex yr yi => pyFloatEq xr yr && pyFloatEq xi yi
  | .bool b, .int n => boolToInt b == n
  | .int n, .bool b => n == boolToInt b
  | .bool b, .float y => pyFloatEqInt y (boolToInt b)
  | .float x, .bool b => pyFloatEqInt x (boolToInt b)
  | .int n, .float y => pyFloatEqInt y n
  | .float x, .int n => pyFloatEqInt x n
  | .bool b, .complex yr yi => pyFloatEqInt yr (boolToInt b) && pyFloatEqInt yi 0
  | .complex xr xi, .bool b => pyFloatEqInt xr (boolToInt b) && pyFloatEqInt xi 0
  | .int n, .complex yr yi => pyFloatEqInt yr n && pyFloatEqInt yi 0
  | .complex xr xi, .int n => pyFloatEqInt xr n && pyFloatEqInt xi 0
  | .float x, .complex yr yi => pyFloatEq x yr && pyFloatEqInt yi 0
  | .complex xr xi, .float y => pyFloatEq xr y && pyFloatEqInt xi 0
  | _, _ => false

/-- `true` iff the float is not NaN — exactly the floats on which Python
`==` is reflexive. -/
def noNanFloat : PyFloat → Bool
  | .nan => false
  | _ => true

/-- `true` iff the literal has no NaN component: on these literals (and
only these) Python `==` is reflexive (`v == v`). -/
def noNanVal : PyVal → Bool
  | .float x => noNanFloat x
  | .complex re im => noNanFloat re && noNanFloat im
  | _ => true

/-- `type(v) in [bool, complex, float, int, str]` for a modelled literal:
every modelled literal except `None` passes this test.  This is the check
`is_value_vector` performs in `AstValueVector.__init__`, and the bare-literal
test of `makeVector`. -/
def isLitType : PyVal → Bool
  | .none => false
  | _ => true

/-- The `BodyContext` enumeration of the source. -/
inductive BodyContext where
  | GLOBAL
  | FUNCTION
  | CONTROL
deriving Repr, DecidableEq

/-- The AST node kinds of `ppl_ast.py` exercised by the claims.  Field
names and order follow the corresponding `__init__` methods.  `AstSymbol`
carries `name`, `import_source` and `protected` (its `equals` compares the
name only); `AstBody` carries its item list and optional context tag;
`AstCall` carries the function node, positional arguments and keyword
arguments (a Python dict, modelled as an association list). -/
inductive AstNode where
  | value (v : PyVal)
  | symbol (name : String) (importSource : Option String) (prot : Bool)
  | binary (left : AstNode) (op : String) (right : AstNode)
  | vector (items : List AstNode)
  | valueVector (items : List PyVal)
  | body (items : List AstNode) (context : Option BodyContext)
  | breakStmt
  | returnStmt (value : AstNode)
  | call (function : AstNode) (args : List AstNode) (keywordArgs : List (String × AstNode))
deriving Repr

/-- The blanket `try: ... except: return False` wrapped around the default
`AstNode.equals`: a raised exception is converted to `False`. -/
def exCatch : Except Unit Bool → Bool
  | .ok b => b
  | .error _ => false

/-- The commutative operators special-cased by `AstBinary.equals`
(line 433 of the source): `('+', '*', 'and', 'or')`. -/
def commutativeOps : List String := ["+", "*", "and", "or"]

/-- Pairwise Python `==` over the common prefix of two literal lists (the
default `AstNode.equals` on the `items` field of two `AstValueVector`s);
literal comparison cannot raise. -/
def zipEqVals : List PyVal → List PyVal → Bool
  | a :: as, b :: bs => pyValEq a b && zipEqVals as bs
  | _, _ => true

mutual

/-- Python `a == b` on AST nodes.  `AstNode.__eq__` first checks
`isinstance(other, self.__class__)` (nodes of different kinds are never
equal, without calling `equals`) and then delegates to the node's `equals`
method.  A raised exception is `Except.error ()`.

Per kind, following the source:
* `AstValue`, `AstReturn`, `AstVector`, `AstValueVector` use the default
  `AstNode.equals` (lines 209-222): each field is compared with `!=`,
  list-valued fields element-wise over `zip` (so only over the common
  prefix), and the whole comparison is wrapped in `try/except` returning
  `False` on any exception (`exCatch`);
* `AstSymbol.equals` compares the names only;
* `AstBinary.equals` (lines 429-435) checks the operator, then the operand
  pair, then — for a commutative operator — the swapped operand pair; its
  body has no `try/except`, so exceptions raised by operand comparisons
  propagate;
* `AstBody.equals` (lines 469-476) requires equal lengths and compares the
  items pairwise, no `try/except`;
* `AstBreak.equals` always returns `True`;
* `AstCall.equals` (lines 534-545) compares the function, the argument and
  keyword-argument counts, then the positional arguments pairwise, and then
  runs `for key in self.keyword_args: if key not in node or ...` — the
  membership test `key not in node` is performed on the `AstCall` object
  itself, which supports no containment protocol, so as soon as the loop is
  entered (i.e. `self.keyword_args` is non-empty) Python raises `TypeError`;
  there is no `try/except`, so the error propagates (`Except.error ()`). -/
def nodeEq : AstNode → AstNode → Except Unit Bool
  | .value v1, .value v2 => .ok (pyValEq v1 v2)
  | .symbol n1 _ _, .symbol n2 _ _ => .ok (n1 == n2)
  | .binary l1 o1 r1, .binary l2 o2 r2 =>
    if o1 = o2 then
      match nodeEq l1 l2 with
      | .error e => .error e
      | .ok a =>
        match (if a then nodeEq r1 r2 else .ok false) with
        | .error e => .error e
        | .ok b =>
          if a && b then .ok true
          else if o1 ∈ commutativeOps then
            match nodeEq l1 r2 with
            | .error e => .error e
            | .ok c =>
              match (if c then nodeEq r1 l2 else .ok false) with
              | .error e => .error e
              | .ok d => .ok (c && d)
          else .ok false
    else .ok false
  | .vector xs, .vector ys => .ok (exCatch (zipEq xs ys))
  | .valueVector vs, .valueVector ws => .ok (zipEqVals vs ws)
  | .body xs _, .body ys _ =>
    if xs.length = ys.length then zipEq xs ys else .ok false
  | .breakStmt, .breakStmt => .ok true
  | .returnStmt v1, .returnStmt v2 => .ok (exCatch (nodeEq v1 v2))
  | .call f1 a1 k1, .call f2 a2 k2 =>
    match nodeEq f1 f2 with
    | .error e => .error e
    | .ok fe =>
      if fe && a1.length == a2.length && k1.length == k2.length then
        match zipEq a1 a2 with
        | .error e => .error e
        | .ok ae =>
          if ae then (if k1.isEmpty then .ok true else .error ()) else .ok false
      else .ok false
  | _, _ => .ok false

/-- `for a, b in zip(xs, ys): if a != b: return False` followed by
`return True`: pairwise comparison over the common prefix, stopping (with
`False`) at the first unequal pair; an exception raised by an element
comparison propagates. -/
def zipEq : List AstNode → List AstNode → Except Unit Bool
  | a :: as, b :: bs =>
    match nodeEq a b with
    | .error e => .error e
    | .ok e => if e then zipEq as bs else .ok false
  | _, _ => .ok true

end

mutual

/-- `true` iff no `AstCall` node with a non-empty keyword-argument dict
occurs anywhere in the tree.  On this fragment structural equality can
never raise (see `nodeEq_total`). -/
def noKwCall : AstNode → Bool
  | .value _ => true
  | .symbol _ _ _ => true
  | .binary l _ r => noKwCall l && noKwCall r
  | .vector xs => noKwCallList xs
  | .valueVector _ => true
  | .body xs _ => noKwCallList xs
  | .breakStmt => true
  | .returnStmt v => noKwCall v
  | .call f args kw => kw.isEmpty && noKwCall f && noKwCallList args

/-- `noKwCall` on every element of a list. -/
def noKwCallList : List AstNode → Bool
  | [] => true
  | x :: xs => noKwCall x && noKwCallList xs

end

mutual

/-- `true` iff no literal anywhere in the tree has a NaN component: on
this fragment every literal compares equal to itself, so structural
equality is reflexive (see `nodeEq_refl`).  A tree containing
`AstValue(float('nan'))` is excluded: `nan != nan` makes such a node
compare unequal to itself. -/
def noNanNode : AstNode → Bool
  | .value v => noNanVal v
  | .symbol _ _ _ => true
  | .binary l _ r => noNanNode l && noNanNode r
  | .vector xs => noNanNodeList xs
  | .valueVector vs => vs.all noNanVal
  | .body xs _ => noNanNodeList xs
  | .breakStmt => true
  | .returnStmt v => noNanNode v
  | .call f args kw => noNanNode f && noNanNodeList args && noNanNodeKw kw

/-- `noNanNode` on every element of a list. -/
def noNanNodeList : List AstNode → Bool
  | [] => true
  | x :: xs => noNanNode x && noNanNodeList xs

/-- `noNanNode` on every keyword-argument value. -/
def noNanNodeKw : List (String × AstNode) → Bool
  | [] => true
  | (_, v) :: ps => noNanNode v && noNanNodeKw ps

end

/-- A value bound in a scope or used in `ScopedVisitor.define`: either an
AST node or a bare literal. -/
inductive PyData where
  | node (n : AstNode)
  | lit (v : PyVal)
deriving Repr

/-- One `Scope` object of the source, minus its `prev` pointer: the chain
of `prev` links is represented as a `List ScopeFrame` whose head is the
innermost frame (`prev = None` corresponds to the empty tail).  `bindings`
is the Python dict, modelled as an association list looked up front-first,
a fresh binding being prepended (so rebinding a name shadows the old entry,
like dict assignment). -/
structure ScopeFrame where
  name : Option String := Option.none
  lineno : Option Nat := Option.none
  bindings : List (String × PyData) := []
  protectedNames : List String := []
deriving Repr

/-- The tiny fragment of Python objects touched by the assertion guard of
`Scope.define` / `Scope.define_protected`: strings, and the builtin type
object `str` itself. -/
inductive PyAtom where
  | str (s : String)
  | strType
deriving Repr, DecidableEq

/-- Python `==` on that fragment: strings compare by contents; the type
object `str` equals no string. -/
def pyAtomEq : PyAtom → PyAtom → Bool
  | .str a, .str b => a == b
  | .strType, .strType => true
  | _, _ => false

/-- `type(x) is str` on that fragment. -/
def pyAtomTypeIsStr : PyAtom → Bool
  | .str _ => true
  | .strType => false

/-- The assertion guard of `Scope.define` (line 269), exactly as written in
the source: `type(name) is str and str != '' and str != '_'`.  The operand
of the last two comparisons is the builtin type object `str` — not the
argument `name` — so they compare a type object against a string. -/
def scopeDefineGuard (name : String) : Bool :=
  pyAtomTypeIsStr (.str name) && !pyAtomEq .strType (.str "") && !pyAtomEq .strType (.str "_")

/-- `Scope.define(name, value)` (lines 268-270): assert the guard, then
`self.bindings[name] = value`.  A failing assertion is `Except.error ()`. -/
def scopeDefine (f : ScopeFrame) (name : String) (value : PyData) : Except Unit ScopeFrame :=
  if scopeDefineGuard name then
    .ok { f with bindings := (name, value) :: f.bindings }
  else
    .error ()

/-- `Scope.define_protected(name)` (lines 272-274): same (mis-)guard, then
`self.protected_names.add(name)`. -/
def scopeDefineProtected (f : ScopeFrame) (name : String) : Except Unit ScopeFrame :=
  if scopeDefineGuard name then
    .ok { f with protectedNames := name :: f.protectedNames }
  else
    .error ()

/-- `Scope.resolve(name)` (lines 276-284) on a chain of frames, innermost
first: if the name is protected in this frame return `None`; else if bound
here return the binding; else delegate to `prev`, or return `None` when
`prev is None`. -/
def scopeResolve : List ScopeFrame → String → Option PyData
  | [], _ => Option.none
  | f :: rest, name =>
    if name ∈ f.protectedNames then Option.none
    else
      match f.bindings.lookup name with
      | some v => some v
      | Option.none => scopeResolve rest name

/-- The binding of `name` in the nearest frame of the chain that binds it
(ignoring protection) — the reference value for the unprotected case of
`resolve`. -/
def nearestBinding (chain : List ScopeFrame) (name : String) : Option PyData :=
  chain.findSome? (fun f => f.bindings.lookup name)

/-- `is_vector(node)` (line 1103): `AstValueVector` or `AstVector`.
Returns the element sequence iterated by `zip` in `ScopedVisitor.define`:
an `AstVector` yields its item nodes, an `AstValueVector` its raw literals.
`Option.none` for every other value (then `is_vector` is false). -/
def vectorElems : PyData → Option (List PyData)
  | .node (.vector xs) => some (xs.map .node)
  | .node (.valueVector vs) => some (vs.map .lit)
  | _ => Option.none

/-- A first argument of `ScopedVisitor.define`: a string, a tuple of
strings, or a value of any other type. -/
inductive DefName where
  | str (s : String)
  | tuple (ss : List String)
  | other
deriving Repr

/-- `Scope.define` without the `Except` wrapper.  Its assertion guard is
identically true (`scopeDefineGuard_eq_true` below), so the call always
succeeds and `ScopedVisitor.define` can use this total form. -/
def frameDefine (f : ScopeFrame) (name : String) (value : PyData) : ScopeFrame :=
  { f with bindings := (name, value) :: f.bindings }

/-- Apply `frameDefine` to the current (head) frame of the chain —
`self.scope` in the source. -/
def defineCurrent (st : List ScopeFrame) (name : String) (value : PyData) :
    List ScopeFrame :=
  match st with
  | [] => []
  | f :: rest => frameDefine f name value :: rest

/-- Apply `frameDefine` to the root (last) frame of the chain —
`self.global_scope` in the source. -/
def defineGlobal (st : List ScopeFrame) (name : String) (value : PyData) :
    List ScopeFrame :=
  match st with
  | [] => []
  | [f] => [frameDefine f name value]
  | f :: rest => f :: defineGlobal rest name value

/-- `scope = self.global_scope if globally else self.scope` followed by
`scope.define(n, v)`. -/
def chainDefine (globally : Bool) (st : List ScopeFrame) (name : String) (value : PyData) :
    List ScopeFrame :=
  if globally then defineGlobal st name value else defineCurrent st name value

/-- `ScopedVisitor.define(name, value, globally)` (lines 320-330).  The
target scope is the root frame when `globally` is set, else the current
frame.  A string name is bound directly and the method returns `True`.  A
tuple name is destructured element-wise when the value `is_vector` of
matching length; when it is not (non-vector value, or length mismatch) no
binding is made — but the method still falls through to `return True`.
Only a name that is neither a string nor a tuple hits the `else: return
False` branch.  Returns the updated chain and the returned boolean. -/
def svDefine (st : List ScopeFrame) (name : DefName) (value : PyData) (globally : Bool) :
    List ScopeFrame × Bool :=
  match name with
  | .str s => (chainDefine globally st s value, true)
  | .tuple ss =>
    match vectorElems value with
    | some vs =>
      if ss.length = vs.length then
        ((ss.zip vs).foldl (fun acc p => chainDefine globally acc p.1 p.2) st, true)
      else (st, true)
    | Option.none => (st, true)
  | .other => (st, false)

/-- `isinstance(item, AstBody)`. -/
def isBodyNode : AstNode → Bool
  | .body _ _ => true
  | _ => false

/-- `isinstance(item, AstReturn)`. -/
def isReturnNode : AstNode → Bool
  | .returnStmt _ => true
  | _ => false

/-- `isinstance(item, AstBreak)`. -/
def isBreakNode : AstNode → Bool
  | .breakStmt => true
  | _ => false

/-- The `items` field of a body node (`[]` on any other kind; only applied
to body nodes). -/
def bodyItemsOf : AstNode → List AstNode
  | .body xs _ => xs
  | _ => []

/-- `isBodyNode` through an optional item (`False` for Python `None`). -/
def isBodyOpt : Option AstNode → Bool
  | some n => isBodyNode n
  | Option.none => false

/-- The flattening loop of `AstBody.__init__` (lines 447-455), run over the
ORIGINAL item list (`None` entries included): a nested body contributes its
own items in place; a return or break is appended and the loop stops; any
other item — including `None`, which takes the plain `else` branch — is
appended unchanged. -/
def bodyFlatten : List (Option AstNode) → List (Option AstNode)
  | [] => []
  | Option.none :: rest => Option.none :: bodyFlatten rest
  | some n :: rest =>
    if isBodyNode n then (bodyItemsOf n).map some ++ bodyFlatten rest
    else if isReturnNode n || isBreakNode n then [some n]
    else some n :: bodyFlatten rest

/-- `AstBody.__init__(items, context)` (lines 440-458).  An input item is
either an AST node or Python `None`.  First `self.items` is set to the
input with `None` entries dropped; then, if any ORIGINAL item is a nested
body, `self.items` is replaced by the result of the flattening loop (which
does NOT drop `None` entries).  The closing
`assert all(isinstance(item, AstNode))` fails — `Except.error ()` — exactly
when a `None` survives into the final list. -/
def mkAstBody (items : List (Option AstNode)) (context : Option BodyContext) :
    Except Unit AstNode :=
  let selfItems :=
    if items.any isBodyOpt then bodyFlatten items
    else items.filter (fun i => i.isSome)
  if selfItems.all (fun i => i.isSome) then
    .ok (.body (selfItems.filterMap id) context)
  else
    .error ()

/-- An argument list for `makeVector`: each item is an AST node or a bare
Python literal. -/
inductive VecItem where
  | node (n : AstNode)
  | lit (v : PyVal)
deriving Repr

/-- `isinstance(item, AstValue)`. -/
def isAstValueItem : VecItem → Bool
  | .node (.value _) => true
  | _ => false

/-- `type(item) in [bool, complex, float, int, str]` — note `None` is not
in the list. -/
def isBareLitItem : VecItem → Bool
  | .lit v => isLitType v
  | _ => false

/-- `isinstance(item, AstNode)` on a `VecItem`. -/
def isNodeItem : VecItem → Bool
  | .node _ => true
  | _ => false

/-- The value of an `AstValue` item (`item.value`). -/
def valueOfItem : VecItem → Option PyVal
  | .node (.value v) => some v
  | _ => Option.none

/-- The node of a node item. -/
def nodeOfItem : VecItem → Option AstNode
  | .node n => some n
  | _ => Option.none

/-- The literal of a bare-literal item. -/
def litOfItem : VecItem → Option PyVal
  | .lit v => some v
  | _ => Option.none

/-- `AstValueVector.__init__(items)` (lines 946-955):
`assert type(items) is list and is_value_vector(items)`, where
`is_value_vector` requires every element to be of type bool, complex,
float, int or str — `None` elements make the assertion fail. -/
def mkAstValueVector (vs : List PyVal) : Except Unit AstNode :=
  if vs.all isLitType then .ok (.valueVector vs) else .error ()

/-- `AstVector.__init__(items)` (lines 995-997):
`assert type(items) is list and all(isinstance(item, AstNode) for item in
items)` — any bare-literal element makes the assertion fail. -/
def mkAstVector (items : List VecItem) : Except Unit AstNode :=
  if items.all isNodeItem then
    .ok (.vector (items.filterMap nodeOfItem))
  else
    .error ()

/-- `makeVector(items)` (lines 1042-1048): if every item is an `AstValue`
node, build an `AstValueVector` from their `.value`s; else if every item is
a bare literal of type bool/complex/float/int/str, build an
`AstValueVector` from the items; else build an `AstVector` from the items. -/
def makeVector (items : List VecItem) : Except Unit AstNode :=
  if items.all isAstValueItem then
    mkAstValueVector (items.filterMap valueOfItem)
  else if items.all isBareLitItem then
    mkAstValueVector (items.filterMap litOfItem)
  else
    mkAstVector items

/-- A synchronous Python computation that appends entries to an event log
and either returns a value or raises: the effect over which the
envelope-hook part of `AstNode.visit` is modelled. -/
def Eff (α : Type) : Type := List String → List String × Except Unit α

/-- Run one computation after another, propagating a raise (sequencing). -/
def effBind (m : Eff α) (f : α → Eff β) : Eff β := fun log =>
  match m log with
  | (log2, .ok a) => f a log2
  | (log2, .error e) => (log2, .error e)

/-- Append one entry to the log and return. -/
def emitEff (s : String) : Eff Unit := fun log => (log ++ [s], .ok ())

/-- Append one entry to the log, then return the given outcome: models a
method body that runs (observably) and then either returns or raises. -/
def emitThen (s : String) (r : Except Unit α) : Eff α := fun log => (log ++ [s], r)

/-- Python `try: body finally: fin`: `fin` runs whether `body` returns or
raises; a value or exception of `body` is then propagated (an exception
raised by `fin` itself replaces it). -/
def tryFinallyEff (body : Eff α) (fin : Eff Unit) : Eff α := fun log =>
  match body log with
  | (log2, .ok a) =>
    match fin log2 with
    | (log3, .ok _) => (log3, .ok a)
    | (log3, .error e) => (log3, .error e)
  | (log2, .error e) =>
    match fin log2 with
    | (log3, .ok _) => (log3, .error e)
    | (log3, .error e2) => (log3, .error e2)

/-- The method set `AstNode.visit` (lines 124-170) discovers on the visitor
for a given node: `visitMethod` is the first method found among the names
of `get_visitor_names() + ['visit_node', 'generic_visit']` (if any);
`enterHook` / `leaveHook` are the `enter_<base>` / `leave_<base>` envelope
methods (if present); `callableSelf` is the visitor applied as a plain
function, used only when no visit method exists and the visitor is
callable. -/
structure VisitDispatch (α : Type) where
  visitMethod : Option (Eff α)
  enterHook : Option (Eff Unit)
  leaveHook : Option (Eff Unit)
  callableSelf : Option (Eff α)

/-- The dispatch logic of `AstNode.visit` (lines 140-170), for a leaf node
(so `visit_children` is a no-op and the children-first flag is
irrelevant): if no visit method was found and the visitor is callable, the
visitor itself is applied (no hooks); if a visit method was found and BOTH
envelope methods exist (`len(env_methods) == 2`), the enter hook runs
first, then the method inside `try: ... finally: leave(...)`; with fewer
than two envelope methods the method runs bare; with no method and no
callable a `RuntimeError` is raised. -/
def astVisit (v : VisitDispatch α) : Eff α :=
  match v.visitMethod with
  | Option.none =>
    match v.callableSelf with
    | some f => f
    | Option.none => fun log => (log, .error ())
  | some m =>
    match v.enterHook, v.leaveHook with
    | some ent, some lv => effBind ent (fun _ => tryFinallyEff m lv)
    | _, _ => m

theorem AstNode.sizeInduction (motive : AstNode → Prop)
    (step : ∀ a, (∀ b, sizeOf b < sizeOf a → motive b) → motive a) : ∀ a, motive a := by
  have H : ∀ n, ∀ a, sizeOf a ≤ n → motive a := by
    intro n
    induction n with
    | zero =>
      intro a ha
      exact step a (fun b hb => absurd (Nat.lt_of_lt_of_le hb ha) (Nat.not_lt_zero _))
    | succ n ih =>
      intro a ha
      exact step a (fun b hb => ih b (Nat.le_of_lt_succ (Nat.lt_of_lt_of_le hb ha)))
  exact fun a => H (sizeOf a) a (Nat.le_refl _)

theorem beqSymm {α : Type} [BEq α] [LawfulBEq α] (a b : α) : (a == b) = (b == a) := by
  by_cases h : a = b
  · subst h; rfl
  · rw [beq_eq_false_iff_ne.mpr h, beq_eq_false_iff_ne.mpr (Ne.symm h)]

theorem pyFloatEq_symm (x y : PyFloat) : pyFloatEq x y = pyFloatEq y x := by
  cases x <;> cases y <;> first
    | rfl
    | exact beqSymm ..

theorem pyFloatEq_refl {x : PyFloat} (h : noNanFloat x = true) : pyFloatEq x x = true := by
  cases x <;> simp_all [pyFloatEq, noNanFloat]

theorem pyValEq_refl {v : PyVal} (h : noNanVal v = true) : pyValEq v v = true := by
  cases v <;> simp_all [pyValEq, noNanVal, pyFloatEq_refl]

theorem pyValEq_symm (v w : PyVal) : pyValEq v w = pyValEq w v := by
  cases v <;> cases w <;> simp only [pyValEq, pyFloatEq_symm] <;> try rfl
  all_goals exact beqSymm ..

theorem nodeEq_binary_eval {l1 r1 l2 r2 : AstNode} {o : String} {x y c d : Bool}
    (hx : nodeEq l1 l2 = .ok x) (hy : nodeEq r1 r2 = .ok y)
    (hc : nodeEq l1 r2 = .ok c) (hd : nodeEq r1 l2 = .ok d) :
    nodeEq (.binary l1 o r1) (.binary l2 o r2)
      = .ok ((x && y) || (decide (o ∈ commutativeOps) && (c && d))) := by
  by_cases ho : o ∈ commutativeOps <;>
    cases x <;> cases y <;> cases c <;> cases d <;>
    simp [nodeEq, hx, hy, hc, hd, ho]

theorem nodeEq_call_eval {f1 f2 : AstNode} {a1 a2 : List AstNode}
    {k2 : List (String × AstNode)} {x z : Bool}
    (hx : nodeEq f1 f2 = .ok x) (hz : zipEq a1 a2 = .ok z) :
    nodeEq (.call f1 a1 []) (.call f2 a2 k2)
      = .ok ((x && (a1.length == a2.length) && ((0 : Nat) == k2.length)) && z) := by
  cases x <;> cases z <;>
    cases h1 : (a1.length == a2.length) <;> cases h2 : ((0 : Nat) == k2.length) <;>
    simp [nodeEq, hx, hz, h1, h2, List.isEmpty]

theorem zipEq_nil_left (ys : List AstNode) : zipEq [] ys = .ok true := by
  cases ys <;> rfl

theorem zipEq_nil_right (xs : List AstNode) : zipEq xs [] = .ok true := by
  cases xs <;> rfl

theorem noKwCallList_mem {xs : List AstNode} (h : noKwCallList xs = true) :
    ∀ x ∈ xs, noKwCall x = true := by
  induction xs with
  | nil => intro x hx; cases hx
  | cons a as ih =>
    simp only [noKwCallList, Bool.and_eq_true] at h
    intro x hx
    cases hx with
    | head => exact h.1
    | tail _ hx => exact ih h.2 x hx

theorem zipEq_ok {xs : List AstNode} (ys : List AstNode)
    (h : ∀ x ∈ xs, ∀ b, ∃ r, nodeEq x b = .ok r) : ∃ r, zipEq xs ys = .ok r := by
  induction xs generalizing ys with
  | nil => exact ⟨true, zipEq_nil_left ys⟩
  | cons a as ih =>
    cases ys with
    | nil => exact ⟨true, rfl⟩
    | cons b bs =>
      obtain ⟨r, hr⟩ := h a (by simp) b
      cases r with
      | false => exact ⟨false, by simp [zipEq, hr]⟩
      | true =>
        obtain ⟨r2, hr2⟩ := ih bs (fun x hx => h x (by simp [hx]))
        exact ⟨r2, by simp [zipEq, hr, hr2]⟩

theorem sizeOf_lt_of_mem_ast {x : AstNode} {xs : List AstNode} (h : x ∈ xs) :
    sizeOf x < sizeOf xs :=
  List.sizeOf_lt_of_mem h

theorem nodeEq_total : ∀ a, noKwCall a = true → ∀ b, ∃ r, nodeEq a b = .ok r := by
  intro a
  induction a using AstNode.sizeInduction with
  | step a IH =>
    intro hnk b
    match a, b with
    | .value v, b => cases b <;> exact ⟨_, rfl⟩
    | .symbol n i p, b => cases b <;> exact ⟨_, rfl⟩
    | .vector xs, b => cases b <;> exact ⟨_, rfl⟩
    | .valueVector vs, b => cases b <;> exact ⟨_, rfl⟩
    | .breakStmt, b => cases b <;> exact ⟨_, rfl⟩
    | .returnStmt v, b => cases b <;> exact ⟨_, rfl⟩
    | .binary l o r, b =>
      simp only [noKwCall, Bool.and_eq_true] at hnk
      have hl : sizeOf l < sizeOf (AstNode.binary l o r) := by simp; try omega
      have hr : sizeOf r < sizeOf (AstNode.binary l o r) := by simp; try omega
      cases b with
      | binary l2 o2 r2 =>
        obtain ⟨x, hx⟩ := IH l hl hnk.1 l2
        obtain ⟨y, hy⟩ := IH r hr hnk.2 r2
        obtain ⟨c, hc⟩ := IH l hl hnk.1 r2
        obtain ⟨d, hd⟩ := IH r hr hnk.2 l2
        by_cases ho : o = o2
        · subst ho; exact ⟨_, nodeEq_binary_eval hx hy hc hd⟩
        · exact ⟨false, by simp [nodeEq, ho]⟩
      | value v => exact ⟨_, rfl⟩
      | symbol n i p => exact ⟨_, rfl⟩
      | vector xs => exact ⟨_, rfl⟩
      | valueVector vs => exact ⟨_, rfl⟩
      | body ys c => exact ⟨_, rfl⟩
      | breakStmt => exact ⟨_, rfl⟩
      | returnStmt v => exact ⟨_, rfl⟩
      | call f as ks => exact ⟨_, rfl⟩
    | .body xs c, b =>
      simp only [noKwCall] at hnk
      cases b with
      | body ys c2 =>
        by_cases hl : xs.length = ys.length
        · obtain ⟨r, hr⟩ := zipEq_ok ys (fun x hx b =>
            IH x (by have := sizeOf_lt_of_mem_ast hx; simp; try omega)
              (noKwCallList_mem hnk x hx) b)
          exact ⟨r, by simp [nodeEq, hl, hr]⟩
        · exact ⟨false, by simp [nodeEq, hl]⟩
      | value v => exact ⟨_, rfl⟩
      | symbol n i p => exact ⟨_, rfl⟩
      | binary l2 o2 r2 => exact ⟨_, rfl⟩
      | vector ys => exact ⟨_, rfl⟩
      | valueVector vs => exact ⟨_, rfl⟩
      | breakStmt => exact ⟨_, rfl⟩
      | returnStmt v => exact ⟨_, rfl⟩
      | call f as ks => exact ⟨_, rfl⟩
    | .call f args kw, b =>
      simp only [noKwCall, Bool.and_eq_true, List.isEmpty_iff] at hnk
      obtain ⟨⟨hkw, hf⟩, hargs⟩ := hnk
      subst hkw
      cases b with
      | call f2 a2 k2 =>
        obtain ⟨x, hx⟩ := IH f (by simp; try omega) hf f2
        obtain ⟨z, hz⟩ := zipEq_ok a2 (fun x hx b =>
          IH x (by have := sizeOf_lt_of_mem_ast hx; simp; try omega)
            (noKwCallList_mem hargs x hx) b)
        exact ⟨_, nodeEq_call_eval hx hz⟩
      | value v => exact ⟨_, rfl⟩
      | symbol n i p => exact ⟨_, rfl⟩
      | binary l2 o2 r2 => exact ⟨_, rfl⟩
      | vector ys => exact ⟨_, rfl⟩
      | valueVector vs => exact ⟨_, rfl⟩
      | body ys c => exact ⟨_, rfl⟩
      | breakStmt => exact ⟨_, rfl⟩
      | returnStmt v => exact ⟨_, rfl⟩

theorem zipEq_refl {xs : List AstNode} (h : ∀ x ∈ xs, nodeEq x x = .ok true) :
    zipEq xs xs = .ok true := by
  induction xs with
  | nil => rfl
  | cons a as ih => simp [zipEq, h a (by simp), ih (fun x hx => h x (by simp [hx]))]

theorem zipEqVals_refl {vs : List PyVal} (h : vs.all noNanVal = true) :
    zipEqVals vs vs = true := by
  induction vs with
  | nil => rfl
  | cons v ws ih =>
    simp only [List.all_cons, Bool.and_eq_true] at h
    simp [zipEqVals, pyValEq_refl h.1, ih h.2]

theorem noNanNodeList_mem {xs : List AstNode} (h : noNanNodeList xs = true) :
    ∀ x ∈ xs, noNanNode x = true := by
  induction xs with
  | nil => intro x hx; cases hx
  | cons a as ih =>
    simp only [noNanNodeList, Bool.and_eq_true] at h
    intro x hx
    cases hx with
    | head => exact h.1
    | tail _ hx => exact ih h.2 x hx

theorem nodeEq_refl : ∀ a, noKwCall a = true → noNanNode a = true →
    nodeEq a a = .ok true := by
  intro a
  induction a using AstNode.sizeInduction with
  | step a IH =>
    intro hnk hnn
    match a with
    | .value v =>
      simp only [noNanNode] at hnn
      simp [nodeEq, pyValEq_refl hnn]
    | .symbol n i p => simp [nodeEq]
    | .binary l o r =>
      simp only [noKwCall, Bool.and_eq_true] at hnk
      simp only [noNanNode, Bool.and_eq_true] at hnn
      have hl : sizeOf l < sizeOf (AstNode.binary l o r) := by simp; try omega
      have hr : sizeOf r < sizeOf (AstNode.binary l o r) := by simp; try omega
      obtain ⟨c, hc⟩ := nodeEq_total l hnk.1 r
      obtain ⟨d, hd⟩ := nodeEq_total r hnk.2 l
      rw [nodeEq_binary_eval (IH l hl hnk.1 hnn.1) (IH r hr hnk.2 hnn.2) hc hd]
      simp
    | .vector xs =>
      simp only [noKwCall] at hnk
      simp only [noNanNode] at hnn
      have : zipEq xs xs = .ok true := zipEq_refl (fun x hx =>
        IH x (by have := sizeOf_lt_of_mem_ast hx; simp; try omega)
          (noKwCallList_mem hnk x hx) (noNanNodeList_mem hnn x hx))
      simp [nodeEq, this, exCatch]
    | .valueVector vs =>
      simp only [noNanNode] at hnn
      simp [nodeEq, zipEqVals_refl hnn]
    | .body xs c =>
      simp only [noKwCall] at hnk
      simp only [noNanNode] at hnn
      have : zipEq xs xs = .ok true := zipEq_refl (fun x hx =>
        IH x (by have := sizeOf_lt_of_mem_ast hx; simp; try omega)
          (noKwCallList_mem hnk x hx) (noNanNodeList_mem hnn x hx))
      simp [nodeEq, this]
    | .breakStmt => rfl
    | .returnStmt v =>
      simp only [noKwCall] at hnk
      simp only [noNanNode] at hnn
      have := IH v (by simp; try omega) hnk hnn
      simp [nodeEq, this, exCatch]
    | .call f args kw =>
      simp only [noKwCall, Bool.and_eq_true, List.isEmpty_iff] at hnk
      simp only [noNanNode, Bool.and_eq_true] at hnn
      obtain ⟨⟨hkw, hf⟩, hargs⟩ := hnk
      subst hkw
      have hz : zipEq args args = .ok true := zipEq_refl (fun x hx =>
        IH x (by have := sizeOf_lt_of_mem_ast hx; simp; try omega)
          (noKwCallList_mem hargs x hx) (noNanNodeList_mem hnn.1.2 x hx))
      rw [nodeEq_call_eval (IH f (by simp; try omega) hf hnn.1.1) hz]
      simp

theorem zipEqVals_symm (vs ws : List PyVal) : zipEqVals vs ws = zipEqVals ws vs := by
  induction vs generalizing ws with
  | nil => cases ws <;> rfl
  | cons v vs ih =>
    cases ws with
    | nil => rfl
    | cons w ws => simp only [zipEqVals, pyValEq_symm v w, ih ws]

theorem zipEq_symm : ∀ (xs ys : List AstNode),
    (∀ x ∈ xs, ∀ y, noKwCall y = true → nodeEq x y = nodeEq y x) →
    (∀ y ∈ ys, noKwCall y = true) → zipEq xs ys = zipEq ys xs := by
  intro xs
  induction xs with
  | nil => intro ys _ _; rw [zipEq_nil_left, zipEq_nil_right]
  | cons a as ih =>
    intro ys h hys
    cases ys with
    | nil => rw [zipEq_nil_left, zipEq_nil_right]
    | cons b bs =>
      have hab : nodeEq a b = nodeEq b a := h a (by simp) b (hys b (by simp))
      have htail := ih bs (fun x hx y hy => h x (by simp [hx]) y hy)
        (fun y hy => hys y (by simp [hy]))
      simp only [zipEq, hab, htail]

theorem nodeEq_symm : ∀ a, noKwCall a = true → ∀ b, noKwCall b = true →
    nodeEq a b = nodeEq b a := by
  intro a
  induction a using AstNode.sizeInduction with
  | step a IH =>
    intro hnka b hnkb
    match a, b with
    | .value v, .value w => simp only [nodeEq, pyValEq_symm v w]
    | .symbol n1 i1 p1, .symbol n2 i2 p2 => simp only [nodeEq, beqSymm n1 n2]
    | .binary l1 o1 r1, .binary l2 o2 r2 =>
      simp only [noKwCall, Bool.and_eq_true] at hnka hnkb
      have hl1 : sizeOf l1 < sizeOf (AstNode.binary l1 o1 r1) := by simp; try omega
      have hr1 : sizeOf r1 < sizeOf (AstNode.binary l1 o1 r1) := by simp; try omega
      by_cases ho : o1 = o2
      · subst ho
        obtain ⟨x, hx⟩ := nodeEq_total l1 hnka.1 l2
        obtain ⟨y, hy⟩ := nodeEq_total r1 hnka.2 r2
        obtain ⟨c, hc⟩ := nodeEq_total l1 hnka.1 r2
        obtain ⟨d, hd⟩ := nodeEq_total r1 hnka.2 l2
        have hx2 : nodeEq l2 l1 = .ok x := (IH l1 hl1 hnka.1 l2 hnkb.1) ▸ hx
        have hy2 : nodeEq r2 r1 = .ok y := (IH r1 hr1 hnka.2 r2 hnkb.2) ▸ hy
        have hc2 : nodeEq l2 r1 = .ok d := (IH r1 hr1 hnka.2 l2 hnkb.1) ▸ hd
        have hd2 : nodeEq r2 l1 = .ok c := (IH l1 hl1 hnka.1 r2 hnkb.2) ▸ hc
        rw [nodeEq_binary_eval hx hy hc hd, nodeEq_binary_eval hx2 hy2 hc2 hd2,
          Bool.and_comm c d]
      · simp only [nodeEq]
        rw [if_neg ho, if_neg (fun h => ho (Eq.symm h))]
    | .vector xs, .vector ys =>
      simp only [noKwCall] at hnka hnkb
      have := zipEq_symm xs ys
        (fun x hx y hy => IH x (by have := sizeOf_lt_of_mem_ast hx; simp; try omega)
          (noKwCallList_mem hnka x hx) y hy)
        (noKwCallList_mem hnkb)
      simp only [nodeEq, this]
    | .valueVector vs, .valueVector ws => simp only [nodeEq, zipEqVals_symm vs ws]
    | .body xs c1, .body ys c2 =>
      simp only [noKwCall] at hnka hnkb
      have hz := zipEq_symm xs ys
        (fun x hx y hy => IH x (by have := sizeOf_lt_of_mem_ast hx; simp; try omega)
          (noKwCallList_mem hnka x hx) y hy)
        (noKwCallList_mem hnkb)
      by_cases hl : xs.length = ys.length
      · simp only [nodeEq]
        rw [if_pos hl, if_pos hl.symm, hz]
      · simp only [nodeEq]
        rw [if_neg hl, if_neg (fun h => hl (Eq.symm h))]
    | .breakStmt, .breakStmt => rfl
    | .returnStmt v1, .returnStmt v2 =>
      simp only [noKwCall] at hnka hnkb
      have := IH v1 (by simp; try omega) hnka v2 hnkb
      simp only [nodeEq, this]
    | .call f1 a1 k1, .call f2 a2 k2 =>
      simp only [noKwCall, Bool.and_eq_true, List.isEmpty_iff] at hnka hnkb
      obtain ⟨⟨hk1, hf1⟩, ha1⟩ := hnka
      obtain ⟨⟨hk2, hf2⟩, ha2⟩ := hnkb
      subst hk1; subst hk2
      obtain ⟨x, hx⟩ := nodeEq_total f1 hf1 f2
      obtain ⟨z, hz⟩ := zipEq_ok a2 (fun u hu w =>
        nodeEq_total u (noKwCallList_mem ha1 u hu) w)
      have hx2 : nodeEq f2 f1 = .ok x := (IH f1 (by simp; try omega) hf1 f2 hf2) ▸ hx
      have hz2 : zipEq a2 a1 = .ok z := by
        rw [← zipEq_symm a1 a2
          (fun u hu y hy => IH u (by have := sizeOf_lt_of_mem_ast hu; simp; try omega)
            (noKwCallList_mem ha1 u hu) y hy)
          (noKwCallList_mem ha2)]
        exact hz
      rw [nodeEq_call_eval hx hz, nodeEq_call_eval hx2 hz2, beqSymm a1.length a2.length]
    | .value v, .symbol n i p => rfl
    | .value v, .binary l o r => rfl
    | .value v, .vector xs => rfl
    | .value v, .valueVector ws => rfl
    | .value v, .body xs c => rfl
    | .value v, .breakStmt => rfl
    | .value v, .returnStmt w => rfl
    | .value v, .call f as ks => rfl
    | .symbol n i p, .value v => rfl
    | .symbol n i p, .binary l o r => rfl
    | .symbol n i p, .vector xs => rfl
    | .symbol n i p, .valueVector ws => rfl
    | .symbol n i p, .body xs c => rfl
    | .symbol n i p, .breakStmt => rfl
    | .symbol n i p, .returnStmt w => rfl
    | .symbol n i p, .call f as ks => rfl
    | .binary l o r, .value v => rfl
    | .binary l o r, .symbol n i p => rfl
    | .binary l o r, .vector xs => rfl
    | .binary l o r, .valueVector ws => rfl
    | .binary l o r, .body xs c => rfl
    | .binary l o r, .breakStmt => rfl
    | .binary l o r, .returnStmt w => rfl
    | .binary l o r, .call f as ks => rfl
    | .vector xs, .value v => rfl
    | .vector xs, .symbol n i p => rfl
    | .vector xs, .binary l o r => rfl
    | .vector xs, .valueVector ws => rfl
    | .vector xs, .body ys c => rfl
    | .vector xs, .breakStmt => rfl
    | .vector xs, .returnStmt w => rfl
    | .vector xs, .call f as ks => rfl
    | .valueVector vs, .value v => rfl
    | .valueVector vs, .symbol n i p => rfl
    | .valueVector vs, .binary l o r => rfl
    | .valueVector vs, .vector xs => rfl
    | .valueVector vs, .body xs c => rfl
    | .valueVector vs, .breakStmt => rfl
    | .valueVector vs, .returnStmt w => rfl
    | .valueVector vs, .call f as ks => rfl
    | .body xs c, .value v => rfl
    | .body xs c, .symbol n i p => rfl
    | .body xs c, .binary l o r => rfl
    | .body xs c, .vector ys => rfl
    | .body xs c, .valueVector ws => rfl
    | .body xs c, .breakStmt => rfl
    | .body xs c, .returnStmt w => rfl
    | .body xs c, .call f as ks => rfl
    | .breakStmt, .value v => rfl
    | .breakStmt, .symbol n i p => rfl
    | .breakStmt, .binary l o r => rfl
    | .breakStmt, .vector xs => rfl
    | .breakStmt, .valueVector ws => rfl
    | .breakStmt, .body xs c => rfl
    | .breakStmt, .returnStmt w => rfl
    | .breakStmt, .call f as ks => rfl
    | .returnStmt v, .value w => rfl
    | .returnStmt v, .symbol n i p => rfl
    | .returnStmt v, .binary l o r => rfl
    | .returnStmt v, .vector xs => rfl
    | .returnStmt v, .valueVector ws => rfl
    | .returnStmt v, .body xs c => rfl
    | .returnStmt v, .breakStmt => rfl
    | .returnStmt v, .call f as ks => rfl
    | .call f as ks, .value v => rfl
    | .call f as ks, .symbol n i p => rfl
    | .call f as ks, .binary l o r => rfl
    | .call f as ks, .vector xs => rfl
    | .call f as ks, .valueVector ws => rfl
    | .call f as ks, .body xs c => rfl
    | .call f as ks, .breakStmt => rfl
    | .call f as ks, .returnStmt w => rfl

theorem scopeDefineGuard_eq_true (name : String) : scopeDefineGuard name = true := rfl

theorem zipEq_append_right : ∀ (xs ys zs : List AstNode), xs.length = ys.length →
    zipEq xs (ys ++ zs) = zipEq xs ys := by
  intro xs
  induction xs with
  | nil => intro ys zs h; rw [zipEq_nil_left, zipEq_nil_left]
  | cons a as ih =>
    intro ys zs h
    cases ys with
    | nil => simp at h
    | cons b bs =>
      simp only [List.length_cons, Nat.succ.injEq] at h
      simp only [List.cons_append, zipEq, List.append_eq, ih bs zs h]

theorem zipEq_append_left : ∀ (xs ys zs : List AstNode), xs.length = ys.length →
    zipEq (xs ++ zs) ys = zipEq xs ys := by
  intro xs
  induction xs with
  | nil =>
    intro ys zs h
    have : ys = [] := by cases ys <;> simp_all
    subst this
    rw [zipEq_nil_right, zipEq_nil_left]
  | cons a as ih =>
    intro ys zs h
    cases ys with
    | nil => simp at h
    | cons b bs =>
      simp only [List.length_cons, Nat.succ.injEq] at h
      simp only [List.cons_append, zipEq, List.append_eq, ih bs zs h]

theorem all_isSome_filter {α : Type} (l : List (Option α)) :
    (l.filter (fun i => i.isSome)).all (fun i => i.isSome) = true := by
  induction l with
  | nil => rfl
  | cons a l ih => cases a <;> simp [List.filter_cons, ih]

theorem filterMap_id_filter {α : Type} (l : List (Option α)) :
    (l.filter (fun i => i.isSome)).filterMap id = l.filterMap id := by
  induction l with
  | nil => rfl
  | cons a l ih => cases a <;> simp [List.filter_cons, List.filterMap_cons, ih]

theorem filterMap_length_all {α β : Type} (f : α → Option β) (l : List α)
    (h : ∀ a ∈ l, (f a).isSome = true) : (l.filterMap f).length = l.length := by
  induction l with
  | nil => rfl
  | cons a l ih =>
    cases hfa : f a with
    | none => have := h a (by simp); rw [hfa] at this; simp at this
    | some b =>
      simp [List.filterMap_cons, hfa, ih (fun x hx => h x (by simp [hx]))]

/-- C2: if a name is in a frame's protected set, `resolve` on that frame
returns unresolved (`None`) no matter what outer frames bind; on a chain in
which no frame protects the name, `resolve` returns the binding of the
nearest frame that binds it, or `None` at the root. -/
theorem scope_resolve_protected_barrier (name : String) :
    (∀ (f : ScopeFrame) (rest : List ScopeFrame), name ∈ f.protectedNames →
      scopeResolve (f :: rest) name = Option.none) ∧
    (∀ chain : List ScopeFrame, (∀ f ∈ chain, name ∉ f.protectedNames) →
      scopeResolve chain name = nearestBinding chain name) := by
  constructor
  · intro f rest h
    simp [scopeResolve, h]
  · intro chain h
    induction chain with
    | nil => rfl
    | cons f rest ih =>
      have hf : name ∉ f.protectedNames := h f (by simp)
      have hr := ih (fun g hg => h g (by simp [hg]))
      simp only [scopeResolve, if_neg hf, nearestBinding, List.findSome?_cons]
      cases hb : f.bindings.lookup name with
      | none => rw [hr]; rfl
      | some v => rfl

theorem scope_resolve_protected_barrier_witness :
    scopeResolve [{ protectedNames := ["x"] }, { bindings := [("x", .lit (.int 1))] }] "x"
        = Option.none ∧
    scopeResolve [{}, { bindings := [("x", .lit (.int 1))] }] "x" = some (.lit (.int 1)) := by
  constructor
  · exact (scope_resolve_protected_barrier "x").1 _ _ (by simp)
  · rw [(scope_resolve_protected_barrier "x").2 [{}, { bindings := [("x", .lit (.int 1))] }]
      (by simp)]
    rfl

/-- C6: the assertion guarding `Scope.define` compares the builtin type
object `str` — not the argument — against the empty and placeholder
strings, so it always passes: `define` binds the empty name and the
placeholder name instead of rejecting them. -/
theorem scope_define_accepts_empty_and_placeholder :
    scopeDefine {} "" (.lit (.int 1)) = .ok { bindings := [("", .lit (.int 1))] } ∧
    scopeDefine {} "_" (.lit (.int 2)) = .ok { bindings := [("_", .lit (.int 2))] } :=
  ⟨rfl, rfl⟩

/-- C10: when no item of the input list is a nested body, `AstBody.__init__`
silently drops the `None` items, keeps the remaining items in order, and
succeeds. -/
theorem astBody_drops_none_items (items : List (Option AstNode)) (context : Option BodyContext)
    (h : ∀ i ∈ items, isBodyOpt i = false) :
    mkAstBody items context = .ok (.body (items.filterMap id) context) := by
  have hany : items.any isBodyOpt = false := by
    rw [List.any_eq_false]
    intro x hx
    simp [h x hx]
  simp only [mkAstBody, hany, Bool.false_eq_true, if_false, all_isSome_filter,
    if_true, filterMap_id_filter]

theorem astBody_drops_none_items_witness :
    mkAstBody [some (.value (.int 1)), Option.none, some (.symbol "x" Option.none false)]
        Option.none
      = .ok (.body [.value (.int 1), .symbol "x" Option.none false] Option.none) :=
  astBody_drops_none_items _ _ (by decide)

/-- C1 counterexample: with no nested body among the items the flattening
pass does not run, so a body built from `[return 1, 2]` keeps the trailing
item and is NOT structurally equal to a body built from `[return 1]`. -/
theorem astBody_return_counterexample :
    mkAstBody [some (.returnStmt (.value (.int 1))), some (.value (.int 2))] Option.none
        = .ok (.body [.returnStmt (.value (.int 1)), .value (.int 2)] Option.none) ∧
    mkAstBody [some (.returnStmt (.value (.int 1)))] Option.none
        = .ok (.body [.returnStmt (.value (.int 1))] Option.none) ∧
    nodeEq (.body [.returnStmt (.value (.int 1)), .value (.int 2)] Option.none)
        (.body [.returnStmt (.value (.int 1))] Option.none) = .ok false :=
  ⟨rfl, rfl, rfl⟩

/-- C1 (amended): when the item list does contain a nested body — so the
flattening pass of `AstBody.__init__` runs — every item after a leading
return is discarded: a body built from `return v :: rest` equals the body
built from `[return v]` alone. -/
theorem astBody_return_discards_after_flatten (v : AstNode) (rest : List (Option AstNode))
    (context : Option BodyContext) (h : rest.any isBodyOpt = true) :
    mkAstBody (some (.returnStmt v) :: rest) context
      = mkAstBody [some (.returnStmt v)] context := by
  have hany : (some (.returnStmt v) :: rest).any isBodyOpt = true := by
    simp [List.any_cons, h]
  simp [mkAstBody, hany, bodyFlatten, isBodyNode, isReturnNode, isBodyOpt]

theorem astBody_return_discards_after_flatten_witness :
    mkAstBody [some (.returnStmt (.value (.int 1))), some (.body [.value (.int 2)] Option.none)]
        Option.none
      = mkAstBody [some (.returnStmt (.value (.int 1)))] Option.none :=
  astBody_return_discards_after_flatten _ _ _ (by decide)

/-- C3: comparing two calls of the same shape that carry a keyword argument
reaches `for key in self.keyword_args: if key not in node ...` in
`AstCall.equals`; the membership test is made on the `AstCall` object
itself, which is not a container, so the comparison raises `TypeError`
(modelled `Except.error ()`) instead of recovering to not-equal. -/
theorem astCall_equals_raises :
    nodeEq (.call (.symbol "f" Option.none false) [] [("a", .value (.int 1))])
        (.call (.symbol "f" Option.none false) [] [("a", .value (.int 1))])
      = .error () := rfl

/-- C4 counterexample: the claim quantifies over all nodes, and fails in
two ways.  With `a = b = AstValue(float('nan'))` — no call node in sight —
`binary(a, +, b)` does NOT structurally equal `binary(b, +, a)`: every
operand comparison in `AstBinary.equals` goes through `nan != nan`, which
is true in Python, so both the direct and the swapped operand checks fail
and the method returns `False`.  And when the operands contain a call with
a keyword argument, the operand comparison raises (the `key not in node`
slip in `AstCall.equals`) and the exception propagates through
`AstBinary.equals`, so the comparison errors out instead of succeeding. -/
theorem astBinary_commutes_counterexample :
    nodeEq
      (.binary (.value (.float .nan)) "+" (.value (.float .nan)))
      (.binary (.value (.float .nan)) "+" (.value (.float .nan)))
      = .ok false ∧
    nodeEq
      (.binary (.call (.symbol "f" Option.none false) [] [("a", .value (.int 1))]) "+"
        (.call (.symbol "f" Option.none false) [] [("a", .value (.int 1))]))
      (.binary (.call (.symbol "f" Option.none false) [] [("a", .value (.int 1))]) "+"
        (.call (.symbol "f" Option.none false) [] [("a", .value (.int 1))]))
      = .error () := ⟨rfl, rfl⟩

/-- C4 (amended): on operands whose subtrees contain no call node with
keyword arguments (so structural comparison cannot raise) and no NaN
literal (so every literal equals itself and structural equality is
reflexive), `binary(a, op, b)` structurally equals `binary(b, op, a)` for
every commutative `op ∈ {+, *, and, or}`, and for the non-commutative `-`
the swapped comparison succeeds exactly when `a` structurally equals
`b`. -/
theorem astBinary_equals_commutative (a b : AstNode) (op : String)
    (ha : noKwCall a = true) (hb : noKwCall b = true)
    (hna : noNanNode a = true) (hnb : noNanNode b = true) :
    (op ∈ commutativeOps → nodeEq (.binary a op b) (.binary b op a) = .ok true) ∧
    (nodeEq (.binary a "-" b) (.binary b "-" a) = .ok true ↔ nodeEq a b = .ok true) := by
  obtain ⟨x, hx⟩ := nodeEq_total a ha b
  have hx2 : nodeEq b a = .ok x := (nodeEq_symm a ha b hb) ▸ hx
  have hra : nodeEq a a = .ok true := nodeEq_refl a ha hna
  have hrb : nodeEq b b = .ok true := nodeEq_refl b hb hnb
  constructor
  · intro hop
    rw [nodeEq_binary_eval hx hx2 hra hrb]
    simp [hop]
  · rw [nodeEq_binary_eval hx hx2 hra hrb]
    have hminus : decide ("-" ∈ commutativeOps) = false := by decide
    rw [hminus]
    simp only [Bool.and_self, Bool.false_and, Bool.or_false]
    rw [hx]

theorem astBinary_equals_commutative_witness :
    nodeEq (.binary (.value (.int 1)) "+" (.symbol "x" Option.none false))
        (.binary (.symbol "x" Option.none false) "+" (.value (.int 1))) = .ok true ∧
    (nodeEq (.binary (.value (.int 1)) "-" (.value (.int 2)))
        (.binary (.value (.int 2)) "-" (.value (.int 1))) = .ok true
      ↔ nodeEq (.value (.int 1)) (.value (.int 2)) = .ok true) := by
  constructor
  · exact (astBinary_equals_commutative (.value (.int 1)) (.symbol "x" Option.none false)
      "+" rfl rfl rfl rfl).1 (by decide)
  · exact (astBinary_equals_commutative (.value (.int 1)) (.value (.int 2)) "-"
      rfl rfl rfl rfl).2

/-- C8: the default structural equality compares list-valued fields with
`zip`, i.e. only over the overlapping prefix: two general vectors whose
item lists agree up to the shorter length compare equal, the extra elements
of the longer one being ignored. -/
theorem astVector_equals_overlapping (xs ys zs : List AstNode)
    (hlen : xs.length = ys.length) (h : zipEq xs ys = .ok true) :
    nodeEq (.vector xs) (.vector (ys ++ zs)) = .ok true ∧
    nodeEq (.vector (xs ++ zs)) (.vector ys) = .ok true := by
  constructor
  · have := zipEq_append_right xs ys zs hlen
    simp only [nodeEq, this, h, exCatch]
  · have := zipEq_append_left xs ys zs hlen
    simp only [nodeEq, this, h, exCatch]

theorem astVector_equals_overlapping_witness :
    nodeEq (.vector [.value (.int 1)]) (.vector [.value (.int 1), .value (.int 2)])
        = .ok true ∧
    nodeEq (.vector [.value (.int 1), .value (.int 2)]) (.vector [.value (.int 1)])
        = .ok true :=
  astVector_equals_overlapping [.value (.int 1)] [.value (.int 1)] [.value (.int 2)] rfl rfl

/-- C9: when the visitor provides both envelope methods and a visit method
is resolved, `visit` runs `enter_<base>`, then the dispatched method inside
`try: ... finally: leave_<base>(...)`: the log records enter before the
method and leave after it, and the leave hook runs whether the method
returns (`Except.ok`) or raises (`Except.error`), the method's outcome
being propagated afterwards. -/
theorem visit_envelope_hooks (r : Except Unit Nat) (log : List String) :
    astVisit { visitMethod := some (emitThen "visit" r), enterHook := some (emitEff "enter"),
               leaveHook := some (emitEff "leave"), callableSelf := Option.none } log
      = (log ++ ["enter", "visit", "leave"], r) := by
  cases r <;> simp [astVisit, effBind, tryFinallyEff, emitEff, emitThen, List.append_assoc]

/-- C5 counterexample: `AstValue(None)` is a literal-value node, but
`makeVector` on `[AstValue(None)]` passes `[None]` to
`AstValueVector.__init__`, whose `is_value_vector` assertion rejects `None`
(its type is not among bool/complex/float/int/str): construction raises
instead of returning a literal vector. -/
theorem makeVector_none_counterexample :
    makeVector [.node (.value .none)] = .error () := rfl

/-- C5 (amended): `makeVector` yields a literal vector of the input's
length when every item is a literal-value node carrying an actual literal
(not the `None` placeholder), or when every item is a bare literal of type
bool/complex/float/int/str; on an all-node input containing at least one
non-literal-value node it yields a general node vector of the same length
preserving element order. -/
theorem makeVector_spec (items : List VecItem) :
    ((∀ i ∈ items, ∃ v, i = .node (.value v) ∧ isLitType v = true) →
      makeVector items = .ok (.valueVector (items.filterMap valueOfItem)) ∧
      (items.filterMap valueOfItem).length = items.length) ∧
    ((∀ i ∈ items, isBareLitItem i = true) →
      makeVector items = .ok (.valueVector (items.filterMap litOfItem)) ∧
      (items.filterMap litOfItem).length = items.length) ∧
    ((∀ i ∈ items, isNodeItem i = true) → (∃ i ∈ items, isAstValueItem i = false) →
      makeVector items = .ok (.vector (items.filterMap nodeOfItem)) ∧
      (items.filterMap nodeOfItem).length = items.length) := by
  refine ⟨?_, ?_, ?_⟩
  · intro h
    have hall : items.all isAstValueItem = true := by
      rw [List.all_eq_true]
      intro i hi
      obtain ⟨v, rfl, _⟩ := h i hi
      rfl
    have hlit : (items.filterMap valueOfItem).all isLitType = true := by
      rw [List.all_eq_true]
      intro v hv
      rw [List.mem_filterMap] at hv
      obtain ⟨i, hi, hfi⟩ := hv
      obtain ⟨w, rfl, hw⟩ := h i hi
      simp only [valueOfItem, Option.some.injEq] at hfi
      exact hfi ▸ hw
    refine ⟨?_, filterMap_length_all _ _ (fun i hi => by obtain ⟨v, rfl, _⟩ := h i hi; rfl)⟩
    simp only [makeVector, hall, if_true, mkAstValueVector, hlit]
  · intro h
    cases items with
    | nil => exact ⟨rfl, rfl⟩
    | cons i l =>
      have hfirst : isBareLitItem i = true := h i (by simp)
      have hnotall : (i :: l).all isAstValueItem = false := by
        cases i with
        | lit v => simp [List.all_cons, isAstValueItem]
        | node n => simp [isBareLitItem] at hfirst
      have hall2 : (i :: l).all isBareLitItem = true := List.all_eq_true.mpr h
      have hlit : ((i :: l).filterMap litOfItem).all isLitType = true := by
        rw [List.all_eq_true]
        intro v hv
        rw [List.mem_filterMap] at hv
        obtain ⟨j, hj, hfj⟩ := hv
        have hbj := h j hj
        cases j with
        | node n => simp [isBareLitItem] at hbj
        | lit w =>
          simp only [litOfItem, Option.some.injEq] at hfj
          simp only [isBareLitItem] at hbj
          exact hfj ▸ hbj
      refine ⟨?_, filterMap_length_all _ _ (fun j hj => by
        have hbj := h j hj
        cases j with
        | node n => simp [isBareLitItem] at hbj
        | lit w => rfl)⟩
      simp only [makeVector, hnotall, Bool.false_eq_true, if_false, hall2, if_true,
        mkAstValueVector, hlit]
  · intro hn hex
    obtain ⟨j, hj, hjv⟩ := hex
    have h1 : items.all isAstValueItem = false := by
      rw [List.all_eq_false]
      exact ⟨j, hj, by simp [hjv]⟩
    have h2 : items.all isBareLitItem = false := by
      rw [List.all_eq_false]
      refine ⟨j, hj, ?_⟩
      have hnj := hn j hj
      cases j with
      | node n => simp [isBareLitItem]
      | lit v => simp [isNodeItem] at hnj
    have h3 : items.all isNodeItem = true := List.all_eq_true.mpr hn
    refine ⟨?_, filterMap_length_all _ _ (fun i hi => by
      have := hn i hi
      cases i with
      | node n => rfl
      | lit v => simp [isNodeItem] at this)⟩
    simp only [makeVector, h1, h2, Bool.false_eq_true, if_false, mkAstVector, h3, if_true]

theorem makeVector_spec_witness :
    makeVector [.node (.value (.int 1)), .node (.value (.bool true))]
        = .ok (.valueVector [.int 1, .bool true]) ∧
    makeVector [.lit (.str "a")] = .ok (.valueVector [.str "a"]) ∧
    makeVector [.node (.value (.int 1)), .node (.symbol "x" Option.none false)]
        = .ok (.vector [.value (.int 1), .symbol "x" Option.none false]) := by
  refine ⟨((makeVector_spec _).1 ?_).1, ((makeVector_spec _).2.1 ?_).1,
    ((makeVector_spec _).2.2 ?_ ?_).1⟩
  · intro i hi
    simp only [List.mem_cons, List.not_mem_nil, or_false] at hi
    rcases hi with rfl | rfl
    · exact ⟨.int 1, rfl, rfl⟩
    · exact ⟨.bool true, rfl, rfl⟩
  · intro i hi
    simp only [List.mem_cons, List.not_mem_nil, or_false] at hi
    rcases hi with rfl
    rfl
  · intro i hi
    simp only [List.mem_cons, List.not_mem_nil, or_false] at hi
    rcases hi with rfl | rfl
    · rfl
    · rfl
  · exact ⟨.node (.symbol "x" Option.none false), by simp, rfl⟩

theorem chainDefine_foldl (ps : List (String × PyData)) (f : ScopeFrame)
    (rest : List ScopeFrame) :
    ps.foldl (fun acc p => chainDefine false acc p.1 p.2) (f :: rest)
      = { f with bindings := ps.reverse ++ f.bindings } :: rest := by
  induction ps generalizing f with
  | nil => simp
  | cons p ps ih =>
    have hstep : chainDefine false (f :: rest) p.1 p.2 = frameDefine f p.1 p.2 :: rest := rfl
    rw [List.foldl_cons, hstep, ih]
    simp [frameDefine, List.reverse_cons, List.append_assoc]

/-- C7 counterexample: a tuple name with a non-vector value makes no
binding, but `ScopedVisitor.define` still falls through to `return True` —
it reports success, not failure. -/
theorem svDefine_tuple_mismatch_counterexample :
    svDefine [{}] (.tuple ["a", "b"]) (.node (.value (.int 1))) false = ([{}], true) := rfl

/-- C7 (amended): a tuple of names is destructured element-wise into the
current frame when the value is vector-like of matching length, and the
call returns `True`; with a tuple name and a non-vector value or a length
mismatch no binding is created but the call STILL returns `True`; only a
name that is neither a string nor a tuple returns `False` (and makes no
binding). -/
theorem scopedVisitor_define_spec (f : ScopeFrame) (rest : List ScopeFrame)
    (ss : List String) (value : PyData) :
    (∀ vs, vectorElems value = some vs → ss.length = vs.length →
      svDefine (f :: rest) (.tuple ss) value false
        = ({ f with bindings := (ss.zip vs).reverse ++ f.bindings } :: rest, true)) ∧
    ((∀ vs, vectorElems value = some vs → ss.length ≠ vs.length) →
      svDefine (f :: rest) (.tuple ss) value false = (f :: rest, true)) ∧
    svDefine (f :: rest) .other value false = (f :: rest, false) := by
  refine ⟨?_, ?_, rfl⟩
  · intro vs hvs hlen
    simp only [svDefine, hvs, if_pos hlen, chainDefine_foldl]
  · intro hno
    cases hv : vectorElems value with
    | none => simp [svDefine, hv]
    | some vs => simp [svDefine, hv, if_neg (hno vs hv)]

theorem scopedVisitor_define_spec_witness :
    svDefine [{}] (.tuple ["a", "b"])
        (.node (.vector [.value (.int 1), .value (.int 2)])) false
      = ([{ bindings := [("b", .node (.value (.int 2))), ("a", .node (.value (.int 1)))] }],
         true) ∧
    svDefine [{}] (.tuple ["a", "b"]) (.node (.vector [.value (.int 1)])) false
      = ([{}], true) := by
  constructor
  · exact (scopedVisitor_define_spec {} [] ["a", "b"]
      (.node (.vector [.value (.int 1), .value (.int 2)]))).1
      [.node (.value (.int 1)), .node (.value (.int 2))] rfl rfl
  · refine (scopedVisitor_define_spec {} [] ["a", "b"] (.node (.vector [.value (.int 1)]))).2.1
      (fun vs hvs => ?_)
    have : vs = [.node (.value (.int 1))] := by
      simpa [vectorElems] using hvs.symm
    subst this
    decide
